import Mathlib

/-!
A verification development for the PyImportSync code base.

The Python modules under `src/pyimportsync/` are shallowly embedded as
executable Lean definitions:

* `utils.py`      : `normalize_package_name`, `is_local_module`,
                    `get_known_import_mappings`
* `cache.py`      : `FileCache` (freshness test, read-back, write-back)
* `gitignore.py`  : `GitignoreHandler` (pathspec and fnmatch strategies)
* `scanner.py`    : `ImportScanner` (walk, cache use, AST/regex extraction,
                    external filtering)
* `analyzer.py`   : `DependencyAnalyzer` (name resolution and reconciliation)

Modelling conventions, stated once here and referenced below:

* Python strings are `String`/`List Char`; text transformations are
  modelled on the ASCII fragment (`str.lower`, `str.strip`, `\s`, `\w`).
* The file system is explicit data: the list of files `rglob` yields with
  their contents (`none` = unreadable), plus an existence oracle for the
  probe paths of `is_local_module`.
* `ast.parse` + the AST walk of `_extract_imports_from_ast` are an oracle
  parameter `astParse : List Char → Option (Finset String)`; `none` models
  a `SyntaxError`.
* `hashlib.md5(...).hexdigest()` is modelled as an injective digest with
  non-empty outputs (see `get_file_hash`); unreadable files give `""` as
  in the source.
* Python `while` loops and backtracking scans are given structurally
  recursive definitions with an explicit fuel argument that provably
  suffices, so every definition evaluates by kernel reduction.
-/

namespace PyImportSync

/-! ## utils.py : normalize_package_name -/

/-- The whitespace characters stripped by Python `str.strip()`
(ASCII fragment). -/
def isPyWhitespace (c : Char) : Bool :=
  c = ' ' || c = '\t' || c = '\n' || c = '\r' || c = '\x0b' || c = '\x0c'

/-- `name.strip()` : drop leading and trailing whitespace. -/
def pyStrip (l : List Char) : List Char :=
  (l.dropWhile isPyWhitespace).rdropWhile isPyWhitespace

/-- The ASCII case table backing the model of `str.lower()`. -/
def lowerPairs : List (Char × Char) :=
  [('A', 'a'), ('B', 'b'), ('C', 'c'), ('D', 'd'), ('E', 'e'), ('F', 'f'),
   ('G', 'g'), ('H', 'h'), ('I', 'i'), ('J', 'j'), ('K', 'k'), ('L', 'l'),
   ('M', 'm'), ('N', 'n'), ('O', 'o'), ('P', 'p'), ('Q', 'q'), ('R', 'r'),
   ('S', 's'), ('T', 't'), ('U', 'u'), ('V', 'v'), ('W', 'w'), ('X', 'x'),
   ('Y', 'y'), ('Z', 'z')]

/-- First-match lookup in a replacement table; identity when absent. -/
def applyPairs : List (Char × Char) → Char → Char
  | [], c => c
  | (a, b) :: rest, c => if c = a then b else applyPairs rest c

/-- Model of Python `str.lower()` on one character (ASCII fragment). -/
def pyLowerChar (c : Char) : Char :=
  applyPairs lowerPairs c

/-- The ASCII uppercase letters. -/
def upperChars : List Char :=
  lowerPairs.map Prod.fst

/-- `s.replace(a, b)` for one-character `a`, `b`: a per-character map. -/
def replacePy (a b : Char) (l : List Char) : List Char :=
  l.map (fun c => if c = a then b else c)

/-- Does the text contain the two-character substring made of two
hyphens? (Python `'--' in s`.) -/
def hasDD : List Char → Bool
  | c :: d :: rest => (c = '-' && d = '-') || hasDD (d :: rest)
  | _ => false

/-- One pass of `s.replace('--', '-')`: left-to-right, non-overlapping. -/
def replaceDD : List Char → List Char
  | c :: d :: rest =>
    if c = '-' && d = '-' then '-' :: replaceDD rest
    else c :: replaceDD (d :: rest)
  | l => l

/-- The loop `while '--' in s: s = s.replace('--', '-')`, run with fuel.
Each pass strictly shrinks a string that still contains a double hyphen
(`length_replaceDD_lt` below), so `l.length` steps of fuel always reach
the loop's exit condition. -/
def collapseFuel : Nat → List Char → List Char
  | 0, l => l
  | n + 1, l => if hasDD l then collapseFuel n (replaceDD l) else l

/-- The hyphen-collapsing `while` loop of `normalize_package_name`. -/
def collapseDashes (l : List Char) : List Char :=
  collapseFuel l.length l

/-- Is the character a hyphen? (the strip set of `strip('-')`). -/
def isDash (c : Char) : Bool :=
  c = '-'

/-- `normalized.strip('-')` : drop leading and trailing hyphens. -/
def stripDashes (l : List Char) : List Char :=
  (l.dropWhile isDash).rdropWhile isDash

/-- Embedding of `utils.normalize_package_name` on string input.
`if not name` on a string is the emptiness test; the `isinstance` guard
is handled by the `Option`-typed wrapper `normalize_package_name_py`. -/
def normalize_package_name (s : String) : String :=
  if s.data = [] then "" else
  if (pyStrip s.data).map pyLowerChar = [] then "" else
  ⟨stripDashes (collapseDashes (replacePy ' ' '-' (replacePy '.' '-'
    (replacePy '_' '-' ((pyStrip s.data).map pyLowerChar)))))⟩

/-- `normalize_package_name` as called on arbitrary Python values:
`None` (and any non-string value, which the `isinstance` guard sends down
the same branch) is modelled as `none` and yields the empty string. -/
def normalize_package_name_py : Option String → String
  | none => ""
  | some s => normalize_package_name s

/-! ### Character-level facts about the lowercasing model -/

theorem applyPairs_cases (ps : List (Char × Char)) (c : Char) :
    applyPairs ps c = c ∨ c ∈ ps.map Prod.fst := by
  induction ps with
  | nil => exact Or.inl rfl
  | cons pr rest ih =>
    obtain ⟨a, b⟩ := pr
    by_cases h : c = a
    · exact Or.inr (by simp [h])
    · rcases ih with he | hm
      · exact Or.inl (by simp [applyPairs, h, he])
      · exact Or.inr (by simp [List.mem_cons]; exact Or.inr (by simpa using hm))

theorem pyLowerChar_cases (c : Char) : pyLowerChar c = c ∨ c ∈ upperChars :=
  applyPairs_cases lowerPairs c

theorem pyLowerChar_eq_of_not_upper {c : Char} (h : c ∉ upperChars) :
    pyLowerChar c = c :=
  (pyLowerChar_cases c).resolve_right h

theorem upper_char_facts : ∀ c ∈ upperChars,
    pyLowerChar (pyLowerChar c) = pyLowerChar c ∧
    isPyWhitespace (pyLowerChar c) = isPyWhitespace c ∧
    pyLowerChar c ∉ upperChars := by decide

theorem pyLowerChar_idem (c : Char) :
    pyLowerChar (pyLowerChar c) = pyLowerChar c := by
  rcases pyLowerChar_cases c with he | hm
  · rw [he, he]
  · exact (upper_char_facts c hm).1

theorem pyLowerChar_ws (c : Char) :
    isPyWhitespace (pyLowerChar c) = isPyWhitespace c := by
  rcases pyLowerChar_cases c with he | hm
  · rw [he]
  · exact (upper_char_facts c hm).2.1

theorem pyLowerChar_not_upper (c : Char) : pyLowerChar c ∉ upperChars := by
  by_cases hm : c ∈ upperChars
  · exact (upper_char_facts c hm).2.2
  · rw [pyLowerChar_eq_of_not_upper hm]; exact hm

/-! ### Facts about the double-hyphen collapse loop -/

theorem hasDD_cons {l : List Char} (c : Char) (h : hasDD l = true) :
    hasDD (c :: l) = true := by
  cases l with
  | nil => simp [hasDD] at h
  | cons d t => simp [hasDD, h]

theorem hasDD_append_right (a b : List Char) (h : hasDD b = true) :
    hasDD (a ++ b) = true := by
  induction a with
  | nil => simpa using h
  | cons x a ih => exact hasDD_cons x ih

theorem hasDD_append_left (a b : List Char) (h : hasDD a = true) :
    hasDD (a ++ b) = true := by
  induction a with
  | nil => simp [hasDD] at h
  | cons x a ih =>
    cases a with
    | nil => simp [hasDD] at h
    | cons y t =>
      simp only [hasDD, Bool.or_eq_true] at h
      rcases h with h | h
      · simp [List.cons_append, hasDD, h]
      · exact hasDD_cons x (ih h)

theorem replaceDD_other {t : List Char}
    (ht : ∀ (a b : Char) (rest : List Char), t = a :: b :: rest → False) :
    replaceDD t = t := by
  cases t with
  | nil => rfl
  | cons x t2 =>
    cases t2 with
    | nil => rfl
    | cons y t3 => exact (ht x y t3 rfl).elim

theorem hasDD_other {t : List Char}
    (ht : ∀ (a b : Char) (rest : List Char), t = a :: b :: rest → False) :
    hasDD t = false := by
  cases t with
  | nil => rfl
  | cons x t2 =>
    cases t2 with
    | nil => rfl
    | cons y t3 => exact (ht x y t3 rfl).elim

theorem replaceDD_cons_neg {a b : Char} {rest : List Char}
    (hd : (decide (a = '-') && decide (b = '-')) ≠ true) :
    replaceDD (a :: b :: rest) = a :: replaceDD (b :: rest) := by
  simp only [replaceDD]
  rw [if_neg hd]

theorem length_replaceDD_le (l : List Char) :
    (replaceDD l).length ≤ l.length := by
  induction l using replaceDD.induct with
  | case1 a b rest hd ih =>
    simp only [replaceDD, hd, if_true, List.length_cons]
    omega
  | case2 a b rest hd ih =>
    rw [replaceDD_cons_neg hd]
    simp only [List.length_cons]
    simp only [List.length_cons] at ih
    omega
  | case3 t ht => rw [replaceDD_other ht]

theorem length_replaceDD_lt {l : List Char} (h : hasDD l = true) :
    (replaceDD l).length < l.length := by
  induction l using replaceDD.induct with
  | case1 a b rest hd ih =>
    have := length_replaceDD_le rest
    simp only [replaceDD, hd, if_true, List.length_cons]
    omega
  | case2 a b rest hd ih =>
    simp only [hasDD, Bool.or_eq_true] at h
    rcases h with h | h
    · exact absurd h hd
    · have := ih h
      rw [replaceDD_cons_neg hd]
      simp only [List.length_cons]
      simp only [List.length_cons] at this
      omega
  | case3 t ht => rw [hasDD_other ht] at h; exact absurd h (by simp)

theorem mem_replaceDD {c : Char} {l : List Char} (h : c ∈ replaceDD l) :
    c ∈ l := by
  induction l using replaceDD.induct with
  | case1 a b rest hd ih =>
    simp only [replaceDD, hd, if_true, List.mem_cons] at h
    rcases h with h | h
    · simp only [Bool.and_eq_true, decide_eq_true_eq] at hd
      exact List.mem_cons.mpr (Or.inl (h.trans hd.1.symm))
    · exact List.mem_cons.mpr (Or.inr (List.mem_cons.mpr (Or.inr (ih h))))
  | case2 a b rest hd ih =>
    rw [replaceDD_cons_neg hd] at h
    rcases List.mem_cons.mp h with h | h
    · exact List.mem_cons.mpr (Or.inl h)
    · exact List.mem_cons.mpr (Or.inr (ih h))
  | case3 t ht => rw [replaceDD_other ht] at h; exact h

theorem collapseFuel_hasDD {n : Nat} : ∀ {l : List Char}, l.length ≤ n →
    hasDD (collapseFuel n l) = false := by
  induction n with
  | zero =>
    intro l hl
    have : l = [] := List.length_eq_zero.mp (Nat.le_zero.mp hl)
    subst this; rfl
  | succ n ih =>
    intro l hl
    by_cases h : hasDD l = true
    · have hlt := length_replaceDD_lt h
      simp only [collapseFuel, h, if_true]
      exact ih (by omega)
    · simp only [collapseFuel, h, if_false]
      simpa using h

theorem collapseFuel_of_not {l : List Char} (n : Nat) (h : hasDD l = false) :
    collapseFuel n l = l := by
  cases n with
  | zero => rfl
  | succ n => simp [collapseFuel, h]

theorem hasDD_collapseDashes (l : List Char) :
    hasDD (collapseDashes l) = false :=
  collapseFuel_hasDD (le_refl _)

theorem mem_collapseFuel {c : Char} {n : Nat} : ∀ {l : List Char},
    c ∈ collapseFuel n l → c ∈ l := by
  induction n with
  | zero => intro l h; exact h
  | succ n ih =>
    intro l h
    by_cases hd : hasDD l = true
    · simp only [collapseFuel, hd, if_true] at h
      exact mem_replaceDD (ih h)
    · simpa [collapseFuel, hd] using h

theorem mem_collapseDashes {c : Char} {l : List Char}
    (h : c ∈ collapseDashes l) : c ∈ l :=
  mem_collapseFuel h

/-! ### Facts about stripping and replacement -/

theorem dropWhile_eq_self_of_all {p : Char → Bool} {l : List Char}
    (h : ∀ c ∈ l, p c = false) : l.dropWhile p = l := by
  cases l with
  | nil => rfl
  | cons c t => simp [List.dropWhile, h c (List.mem_cons_self c t)]

theorem rdropWhile_eq_self_of_all {p : Char → Bool} {l : List Char}
    (h : ∀ c ∈ l, p c = false) : l.rdropWhile p = l := by
  unfold List.rdropWhile
  rw [dropWhile_eq_self_of_all (fun c hc => h c (List.mem_reverse.mp hc)),
    List.reverse_reverse]

theorem mem_of_mem_dropWhile {p : Char → Bool} {c : Char} {l : List Char}
    (h : c ∈ l.dropWhile p) : c ∈ l :=
  (List.dropWhile_suffix p).sublist.mem h

theorem mem_of_mem_rdropWhile {p : Char → Bool} {c : Char} {l : List Char}
    (h : c ∈ l.rdropWhile p) : c ∈ l :=
  ( List.rdropWhile_prefix p l).sublist.mem h

theorem mem_pyStrip {c : Char} {l : List Char} (h : c ∈ pyStrip l) : c ∈ l :=
  mem_of_mem_dropWhile (mem_of_mem_rdropWhile h)

theorem mem_stripDashes {c : Char} {l : List Char} (h : c ∈ stripDashes l) :
    c ∈ l :=
  mem_of_mem_dropWhile (mem_of_mem_rdropWhile h)

theorem hasDD_dropWhile {p : Char → Bool} {l : List Char}
    (h : hasDD (l.dropWhile p) = true) : hasDD l = true := by
  obtain ⟨a, ha⟩ := List.dropWhile_suffix (l := l) p
  rw [← ha]
  exact hasDD_append_right a _ h

theorem hasDD_rdropWhile {p : Char → Bool} {l : List Char}
    (h : hasDD (l.rdropWhile p) = true) : hasDD l = true := by
  obtain ⟨a, ha⟩ := List.rdropWhile_prefix (l := l) p
  rw [← ha]
  exact hasDD_append_left _ a h

theorem hasDD_stripDashes {l : List Char} (h : hasDD l = false) :
    hasDD (stripDashes l) = false := by
  by_cases hs : hasDD (stripDashes l) = true
  · exact absurd (hasDD_dropWhile (hasDD_rdropWhile hs)) (by simp [h])
  · simpa using hs

theorem mem_replacePy {a b c : Char} {l : List Char}
    (h : c ∈ replacePy a b l) : c = b ∨ (c ∈ l ∧ c ≠ a) := by
  simp only [replacePy, List.mem_map] at h
  obtain ⟨x, hx, he⟩ := h
  by_cases hxa : x = a
  · left; rw [← he, hxa]; simp
  · right
    rw [← he]
    simp only [if_neg hxa]
    exact ⟨hx, hxa⟩

theorem replacePy_eq_self {a b : Char} {l : List Char}
    (h : ∀ c ∈ l, c ≠ a) : replacePy a b l = l := by
  induction l with
  | nil => rfl
  | cons x t ih =>
    have hx : x ≠ a := h x (List.mem_cons_self x t)
    have ih2 := ih (fun c hc => h c (List.mem_cons_of_mem x hc))
    simp only [replacePy, List.map_cons, if_neg hx]
    simp only [replacePy] at ih2
    rw [ih2]

theorem map_eq_self_of_fixed {f : Char → Char} {l : List Char}
    (h : ∀ c ∈ l, f c = c) : l.map f = l := by
  induction l with
  | nil => rfl
  | cons x t ih =>
    simp only [List.map_cons]
    rw [h x (List.mem_cons_self x t),
      ih (fun c hc => h c (List.mem_cons_of_mem x hc))]

theorem head_dropWhile_not {p : Char → Bool} :
    ∀ (l : List Char) (h : l.dropWhile p ≠ []), p ((l.dropWhile p).head h) = false := by
  intro l
  induction l with
  | nil => intro h; exact absurd rfl h
  | cons c t ih =>
    intro h
    by_cases hp : p c
    · simp only [List.dropWhile_cons, hp, if_true] at h ⊢
      exact ih h
    · simp only [List.dropWhile_cons, hp, if_false, List.head_cons]
      simpa using hp

theorem prefHead {l1 l2 : List Char} (h : l1 <+: l2) (hne : l1 ≠ [])
    (hne2 : l2 ≠ []) : l1.head hne = l2.head hne2 := by
  obtain ⟨t, ht⟩ := h
  subst ht
  cases l1 with
  | nil => exact absurd rfl hne
  | cons x t1 => simp

theorem dropWhile_eq_self_of_head {p : Char → Bool} {l : List Char}
    (h : ∀ hne : l ≠ [], p (l.head hne) = false) : l.dropWhile p = l := by
  cases l with
  | nil => rfl
  | cons c t =>
    have := h (List.cons_ne_nil c t)
    simp only [List.head_cons] at this
    simp [List.dropWhile_cons, this]

theorem stripDashes_stripDashes (l : List Char) :
    stripDashes (stripDashes l) = stripDashes l := by
  unfold stripDashes
  by_cases hne : (l.dropWhile isDash).rdropWhile isDash = []
  · rw [hne]
    rfl
  · have hpref := List.rdropWhile_prefix isDash (l := l.dropWhile isDash)
    have hwne : l.dropWhile isDash ≠ [] := by
      intro hc
      rw [hc] at hne
      exact hne (List.rdropWhile_nil isDash)
    have hdrop : ((l.dropWhile isDash).rdropWhile isDash).dropWhile isDash =
        (l.dropWhile isDash).rdropWhile isDash := by
      apply dropWhile_eq_self_of_head
      intro hh
      rw [prefHead hpref hh hwne]
      exact head_dropWhile_not l hwne
    rw [hdrop, List.rdropWhile_idempotent]

theorem pyStrip_eq_self {l : List Char}
    (h : ∀ c ∈ l, isPyWhitespace c = false) : pyStrip l = l := by
  unfold pyStrip
  rw [dropWhile_eq_self_of_all h, rdropWhile_eq_self_of_all h]

/-! ### Unfolding equations for normalize_package_name -/

theorem normalize_eq_core (s : String) (h1 : s.data ≠ [])
    (h2 : (pyStrip s.data).map pyLowerChar ≠ []) :
    normalize_package_name s =
      ⟨stripDashes (collapseDashes (replacePy ' ' '-' (replacePy '.' '-'
        (replacePy '_' '-' ((pyStrip s.data).map pyLowerChar)))))⟩ := by
  unfold normalize_package_name
  rw [if_neg h1, if_neg h2]

theorem normalize_eq_empty1 {s : String} (h1 : s.data = []) :
    normalize_package_name s = "" := by
  unfold normalize_package_name
  rw [if_pos h1]

theorem normalize_eq_empty2 {s : String}
    (h2 : (pyStrip s.data).map pyLowerChar = []) :
    normalize_package_name s = "" := by
  unfold normalize_package_name
  by_cases h1 : s.data = []
  · rw [if_pos h1]
  · rw [if_neg h1, if_pos h2]

/-- Every character of a normalization result is either a hyphen or the
lowercasing of a character of the stripped input, and is none of the three
replaced separators. -/
theorem normalize_chars (s : String) :
    ∀ c ∈ (normalize_package_name s).data,
      (c = '-' ∨ ∃ d ∈ pyStrip s.data, c = pyLowerChar d) ∧
      c ≠ '_' ∧ c ≠ '.' ∧ c ≠ ' ' := by
  intro c hc
  by_cases h1 : s.data = []
  · rw [normalize_eq_empty1 h1] at hc
    simp at hc
  by_cases h2 : (pyStrip s.data).map pyLowerChar = []
  · rw [normalize_eq_empty2 h2] at hc
    simp at hc
  rw [normalize_eq_core s h1 h2] at hc
  have hN : c ∈ replacePy ' ' '-' (replacePy '.' '-'
      (replacePy '_' '-' ((pyStrip s.data).map pyLowerChar))) :=
    mem_collapseDashes (mem_stripDashes hc)
  rcases mem_replacePy hN with h | ⟨hN2, hsp⟩
  · subst h
    exact ⟨Or.inl rfl, by decide, by decide, by decide⟩
  rcases mem_replacePy hN2 with h | ⟨hN3, hdot⟩
  · subst h
    exact ⟨Or.inl rfl, by decide, by decide, by decide⟩
  rcases mem_replacePy hN3 with h | ⟨hN4, hund⟩
  · subst h
    exact ⟨Or.inl rfl, by decide, by decide, by decide⟩
  obtain ⟨d, hd, he⟩ := List.mem_map.mp hN4
  exact ⟨Or.inr ⟨d, hd, he.symm⟩, hund, hdot, hsp⟩

/-- A normalization result never contains two consecutive hyphens. -/
theorem normalize_no_dd (s : String) :
    hasDD (normalize_package_name s).data = false := by
  by_cases h1 : s.data = []
  · rw [normalize_eq_empty1 h1]; rfl
  by_cases h2 : (pyStrip s.data).map pyLowerChar = []
  · rw [normalize_eq_empty2 h2]; rfl
  rw [normalize_eq_core s h1 h2]
  exact hasDD_stripDashes (hasDD_collapseDashes _)

/-- A non-empty `strip('-')` result neither starts nor ends with a
hyphen. -/
theorem stripDashes_edges (w : List Char) (h : stripDashes w ≠ []) :
    (stripDashes w).head h ≠ '-' ∧ (stripDashes w).getLast h ≠ '-' := by
  unfold stripDashes at h ⊢
  have hwne : w.dropWhile isDash ≠ [] := by
    intro hc
    apply h
    rw [hc]
    exact List.rdropWhile_nil isDash
  constructor
  · have hh := head_dropWhile_not (p := isDash) w hwne
    have hp := prefHead (List.rdropWhile_prefix isDash (l := w.dropWhile isDash)) h hwne
    rw [hp]
    intro hcon
    rw [hcon] at hh
    simp [isDash] at hh
  · have hl := List.rdropWhile_last_not isDash (w.dropWhile isDash) h
    intro hcon
    rw [hcon] at hl
    simp [isDash] at hl

/-- A non-empty normalization result neither starts nor ends with a
hyphen. -/
theorem normalize_edges (s : String) :
    ∀ h : (normalize_package_name s).data ≠ [],
      (normalize_package_name s).data.head h ≠ '-' ∧
      (normalize_package_name s).data.getLast h ≠ '-' := by
  intro h
  by_cases h1 : s.data = []
  · rw [normalize_eq_empty1 h1] at h
    exact absurd rfl h
  by_cases h2 : (pyStrip s.data).map pyLowerChar = []
  · rw [normalize_eq_empty2 h2] at h
    exact absurd rfl h
  revert h
  rw [normalize_eq_core s h1 h2]
  intro h
  exact stripDashes_edges _ h

theorem normalize_idem_aux (s : String)
    (hws : ∀ c ∈ s.data, isPyWhitespace c = true → c = ' ') :
    normalize_package_name (normalize_package_name s) =
      normalize_package_name s := by
  by_cases h1 : s.data = []
  · rw [normalize_eq_empty1 h1]
    exact normalize_eq_empty1 rfl
  by_cases h2 : (pyStrip s.data).map pyLowerChar = []
  · rw [normalize_eq_empty2 h2]
    exact normalize_eq_empty1 rfl
  have hcore := normalize_eq_core s h1 h2
  set R := stripDashes (collapseDashes (replacePy ' ' '-' (replacePy '.' '-'
    (replacePy '_' '-' ((pyStrip s.data).map pyLowerChar))))) with hR
  have hchars0 := normalize_chars s
  rw [hcore] at hchars0
  have hchars : ∀ c ∈ R, (c = '-' ∨ ∃ d ∈ pyStrip s.data, c = pyLowerChar d) ∧
      c ≠ '_' ∧ c ≠ '.' ∧ c ≠ ' ' := hchars0
  have hnd0 := normalize_no_dd s
  rw [hcore] at hnd0
  have hnd : hasDD R = false := hnd0
  rw [hcore]
  have hfix : ∀ c ∈ R, pyLowerChar c = c := by
    intro c hc
    rcases (hchars c hc).1 with h | ⟨d, hd, he⟩
    · subst h; decide
    · subst he; exact pyLowerChar_idem d
  have hnws : ∀ c ∈ R, isPyWhitespace c = false := by
    intro c hc
    obtain ⟨h14, hu, hdot2, hsp⟩ := hchars c hc
    rcases h14 with h | ⟨d, hd, he⟩
    · subst h; decide
    · subst he
      by_cases hwd : isPyWhitespace d = true
      · have hds := hws d (mem_pyStrip hd) hwd
        rw [hds] at hsp
        exact absurd (show pyLowerChar ' ' = ' ' by decide) hsp
      · rw [pyLowerChar_ws d]
        simpa using hwd
  have hstrip : pyStrip R = R := pyStrip_eq_self hnws
  have hmap : R.map pyLowerChar = R := map_eq_self_of_fixed hfix
  by_cases hRe : R = []
  · rw [hRe]
    decide
  · have h1b : (⟨R⟩ : String).data ≠ [] := hRe
    have h2b : (pyStrip (⟨R⟩ : String).data).map pyLowerChar ≠ [] := by
      show (pyStrip R).map pyLowerChar ≠ []
      rw [hstrip, hmap]
      exact hRe
    rw [normalize_eq_core ⟨R⟩ h1b h2b]
    have hname : (pyStrip (⟨R⟩ : String).data).map pyLowerChar = R := by
      show (pyStrip R).map pyLowerChar = R
      rw [hstrip, hmap]
    rw [hname]
    have hr1 : replacePy '_' '-' R = R :=
      replacePy_eq_self (fun c hc => (hchars c hc).2.1)
    have hr2 : replacePy '.' '-' R = R :=
      replacePy_eq_self (fun c hc => (hchars c hc).2.2.1)
    have hr3 : replacePy ' ' '-' R = R :=
      replacePy_eq_self (fun c hc => (hchars c hc).2.2.2)
    rw [hr1, hr2, hr3]
    have hcol : collapseDashes R = R := by
      unfold collapseDashes
      exact collapseFuel_of_not _ hnd
    rw [hcol]
    have hsd : stripDashes R = R := by
      rw [hR]
      exact stripDashes_stripDashes _
    rw [hsd]

/-- Claim C6, counterexample. The claim asserts
`normalize(normalize(x)) == normalize(x)` for every string `x`.  It fails
at `x = "a\t-"`: the tab is not replaced (only `'_'`, `'.'`, `' '` are)
and is interior on the first pass, so `normalize("a\t-") = "a\t"`, while
the second pass strips the now-trailing tab, giving `"a"`. -/
theorem normalize_not_idempotent_counterexample :
    normalize_package_name (normalize_package_name "a\t-") ≠
      normalize_package_name "a\t-" := by
  decide

/-- Claim C6, amended. Package-name normalization is idempotent on every
string whose whitespace characters are all plain spaces
(`normalize(normalize(x)) == normalize(x)`); on strings with other
whitespace characters (tab, newline, ...) a second pass can strip further.
Normalization identifies casing and separator variants:
`normalize("My_Package.Name") == normalize("my-package-name")`. -/
theorem normalize_idempotent_and_identifies_variants :
    (∀ s : String, (∀ c ∈ s.data, isPyWhitespace c = true → c = ' ') →
      normalize_package_name (normalize_package_name s) =
        normalize_package_name s) ∧
    normalize_package_name "My_Package.Name" =
      normalize_package_name "my-package-name" :=
  ⟨normalize_idem_aux, by decide⟩

/-- Witness for the amended claim C6 at a concrete input. -/
theorem normalize_idempotent_and_identifies_variants_witness :
    normalize_package_name (normalize_package_name "My_Package. Name") =
      normalize_package_name "My_Package. Name" :=
  normalize_idempotent_and_identifies_variants.1 "My_Package. Name" (by decide)

/-- Claim C10. `normalize_package_name` is total; `None` (and non-string
inputs, which take the same guard branch) give `""`; empty or
whitespace-only strings give `""`; and every output contains no ASCII
uppercase letter, no underscore, dot or space, no two consecutive
hyphens, and neither starts nor ends with a hyphen. -/
theorem normalize_package_name_shape :
    normalize_package_name_py none = "" ∧
    (∀ s : String, (∀ c ∈ s.data, isPyWhitespace c = true) →
      normalize_package_name_py (some s) = "") ∧
    ∀ s : String,
      (∀ c ∈ (normalize_package_name_py (some s)).data,
        c ∉ upperChars ∧ c ≠ '_' ∧ c ≠ '.' ∧ c ≠ ' ') ∧
      hasDD (normalize_package_name_py (some s)).data = false ∧
      ∀ h : (normalize_package_name_py (some s)).data ≠ [],
        (normalize_package_name_py (some s)).data.head h ≠ '-' ∧
        (normalize_package_name_py (some s)).data.getLast h ≠ '-' := by
  refine ⟨rfl, ?_, ?_⟩
  · intro s hws
    show normalize_package_name s = ""
    by_cases h1 : s.data = []
    · exact normalize_eq_empty1 h1
    · apply normalize_eq_empty2
      have hd : s.data.dropWhile isPyWhitespace = [] :=
        List.dropWhile_eq_nil_iff.mpr (fun x hx => hws x hx)
      unfold pyStrip
      rw [hd, List.rdropWhile_nil]
      rfl
  · intro s
    refine ⟨?_, normalize_no_dd s, normalize_edges s⟩
    intro c hc
    obtain ⟨h14, hu, hd, hs2⟩ := normalize_chars s c hc
    refine ⟨?_, hu, hd, hs2⟩
    rcases h14 with h | ⟨d, _, he⟩
    · subst h; decide
    · subst he; exact pyLowerChar_not_upper d

/-- Witness for claim C10 at concrete inputs. -/
theorem normalize_package_name_shape_witness :
    normalize_package_name_py (some " \t ") = "" ∧
    ('a' ∈ (normalize_package_name_py (some "My_Package.Name")).data →
      'a' ∉ upperChars ∧ 'a' ≠ '_' ∧ 'a' ≠ '.' ∧ 'a' ≠ ' ') :=
  ⟨normalize_package_name_shape.2.1 " \t " (by decide),
    fun h => (normalize_package_name_shape.2.2 "My_Package.Name").1 'a' h⟩

/-! ## analyzer.py : DependencyAnalyzer -/

/-- Embedding of `utils.get_known_import_mappings`: the curated static
table from import names to distribution names. -/
def get_known_import_mappings : List (String × String) :=
  [("cv2", "opencv-python"),
   ("PIL", "Pillow"),
   ("yaml", "PyYAML"),
   ("dateutil", "python-dateutil"),
   ("sklearn", "scikit-learn"),
   ("skimage", "scikit-image"),
   ("bs4", "beautifulsoup4"),
   ("requests_oauthlib", "requests-oauthlib"),
   ("jwt", "PyJWT"),
   ("serial", "pyserial"),
   ("magic", "python-magic"),
   ("MySQLdb", "mysqlclient"),
   ("psycopg2", "psycopg2-binary"),
   ("OpenSSL", "pyOpenSSL"),
   ("Crypto", "pycrypto"),
   ("nacl", "PyNaCl"),
   ("lxml", "lxml"),
   ("dotenv", "python-dotenv"),
   ("google", "google-cloud"),
   ("azure", "azure"),
   ("boto3", "boto3"),
   ("tensorflow", "tensorflow"),
   ("torch", "torch"),
   ("transformers", "transformers"),
   ("datasets", "datasets"),
   ("accelerate", "accelerate"),
   ("rest_framework", "djangorestframework"),
   ("django_extensions", "django-extensions"),
   ("django_debug_toolbar", "django-debug-toolbar"),
   ("django_cors_headers", "django-cors-headers"),
   ("django_filter", "django-filter")]

/-- Python `dict` membership test plus indexing, as one lookup. -/
def lookupStr : List (String × String) → String → Option String
  | [], _ => none
  | (k, v) :: rest, s => if s = k then some v else lookupStr rest s

/-- Embedding of `DependencyAnalyzer._enhanced_package_matching`.
`metaMappings` models `self.package_metadata_mappings`, the
environment-dependent table built from installed-package metadata. -/
def enhanced_package_matching (metaMappings : List (String × String))
    (import_name : String) : String :=
  match lookupStr get_known_import_mappings import_name with
  | some v => v
  | none =>
    match lookupStr metaMappings import_name with
    | some v => v
    | none => import_name

/-- The result dictionary of `analyze_dependencies`.  A matched entry is
recorded as the pair (import name, package name); the source renders the
same pair as the string `f"{import_name} -> {package_name}"`. -/
structure AnalysisResult where
  missing : List String
  matched : List (String × String)
  pipreqs : List String
  requirements_count : Nat
  imports_count : Nat
  metadata_mappings_count : Nat
deriving DecidableEq

/-- One iteration of the loop in `analyze_dependencies`: resolve the
name, drop falsy (empty) package names, then route by normalized
membership in the normalized requirement set. -/
def analyzeStep (metaMappings : List (String × String))
    (requirements_packages : Finset String)
    (acc : List (String × String) × List String) (import_name : String) :
    List (String × String) × List String :=
  let package_name := enhanced_package_matching metaMappings import_name
  if package_name ≠ "" then
    if normalize_package_name package_name ∈
        requirements_packages.image normalize_package_name then
      (acc.1 ++ [(import_name, package_name)], acc.2)
    else
      (acc.1, acc.2 ++ [package_name])
  else acc

/-- Embedding of `DependencyAnalyzer.analyze_dependencies`.
`requirements_packages` models the parsed result of
`get_requirements_packages` and `pipreqs_packages` the output of
`run_pipreqs` (an external subprocess).  `imports` is the scanned import
set in its iteration order. -/
def analyze_dependencies (metaMappings : List (String × String))
    (requirements_packages : Finset String) (pipreqs_packages : List String)
    (imports : List String) : AnalysisResult :=
  let res := imports.foldl (analyzeStep metaMappings requirements_packages) ([], [])
  { missing := res.2
    matched := res.1
    pipreqs := pipreqs_packages
    requirements_count := requirements_packages.card
    imports_count := imports.length
    metadata_mappings_count := metaMappings.length }

theorem analyzeStep_mono {meta1 : List (String × String)}
    {reqs : Finset String} (acc : List (String × String) × List String)
    (name : String) :
    (∀ x ∈ acc.1, x ∈ (analyzeStep meta1 reqs acc name).1) ∧
    (∀ y ∈ acc.2, y ∈ (analyzeStep meta1 reqs acc name).2) := by
  simp only [analyzeStep]
  split_ifs with h1 h2
  · exact ⟨fun x hx => List.mem_append.mpr (Or.inl hx), fun y hy => hy⟩
  · exact ⟨fun x hx => hx, fun y hy => List.mem_append.mpr (Or.inl hy)⟩
  · exact ⟨fun x hx => hx, fun y hy => hy⟩

theorem foldl_analyze_mono {meta1 : List (String × String)}
    {reqs : Finset String} :
    ∀ (l : List String) (acc : List (String × String) × List String),
    (∀ x ∈ acc.1, x ∈ (l.foldl (analyzeStep meta1 reqs) acc).1) ∧
    (∀ y ∈ acc.2, y ∈ (l.foldl (analyzeStep meta1 reqs) acc).2) := by
  intro l
  induction l with
  | nil => exact fun acc => ⟨fun x hx => hx, fun y hy => hy⟩
  | cons a t ih =>
    intro acc
    refine ⟨fun x hx => ?_, fun y hy => ?_⟩
    · exact (ih (analyzeStep meta1 reqs acc a)).1 x
        ((analyzeStep_mono acc a).1 x hx)
    · exact (ih (analyzeStep meta1 reqs acc a)).2 y
        ((analyzeStep_mono acc a).2 y hy)

theorem foldl_analyze_mem {meta1 : List (String × String)}
    {reqs : Finset String} {imp : String} :
    ∀ (l : List String) (acc : List (String × String) × List String),
    imp ∈ l →
    enhanced_package_matching meta1 imp ≠ "" →
    ((normalize_package_name (enhanced_package_matching meta1 imp) ∈
        reqs.image normalize_package_name →
      (imp, enhanced_package_matching meta1 imp) ∈
        (l.foldl (analyzeStep meta1 reqs) acc).1) ∧
     (normalize_package_name (enhanced_package_matching meta1 imp) ∉
        reqs.image normalize_package_name →
      enhanced_package_matching meta1 imp ∈
        (l.foldl (analyzeStep meta1 reqs) acc).2)) := by
  intro l
  induction l with
  | nil => intro acc h; exact absurd h (List.not_mem_nil imp)
  | cons a t ih =>
    intro acc hmem hne
    rcases List.mem_cons.mp hmem with heq | htail
    · subst heq
      constructor
      · intro hin
        apply (foldl_analyze_mono t (analyzeStep meta1 reqs acc imp)).1
        simp only [analyzeStep]
        rw [if_pos hne, if_pos hin]
        exact List.mem_append.mpr (Or.inr (List.mem_singleton.mpr rfl))
      · intro hout
        apply (foldl_analyze_mono t (analyzeStep meta1 reqs acc imp)).2
        simp only [analyzeStep]
        rw [if_pos hne, if_neg hout]
        exact List.mem_append.mpr (Or.inr (List.mem_singleton.mpr rfl))
    · exact ih (analyzeStep meta1 reqs acc a) htail hne

/-- Claim C4, counterexample.  The claim asserts that every import name
whose resolved package name is absent from the declared set produces a
missing entry.  The import name `""` resolves to itself, i.e. the empty
string, which the guard `if package_name:` treats as falsy, so with an
empty manifest the result records neither a missing nor a matched entry
for it. -/
theorem analyzer_empty_name_counterexample :
    enhanced_package_matching [] "" = "" ∧
    (analyze_dependencies [] ∅ [] [""]).missing = [] ∧
    (analyze_dependencies [] ∅ [] [""]).matched = [] :=
  ⟨rfl, rfl, rfl⟩

/-- Claim C4, amended.  For every import name whose resolved package name
is non-empty (names resolving to the falsy empty string are silently
dropped), the resolved name is normalized and tested for membership in the
normalized declared set: membership yields the matched pair
(import, package) and absence yields a missing entry carrying the resolved
package name; and for an empty import set and an empty manifest the result
has zero missing and zero matched entries. -/
theorem analyzer_membership_routing :
    (∀ (meta1 : List (String × String)) (reqs : Finset String)
      (pipreqs imports : List String) (imp : String), imp ∈ imports →
      enhanced_package_matching meta1 imp ≠ "" →
      ((normalize_package_name (enhanced_package_matching meta1 imp) ∈
          reqs.image normalize_package_name →
        (imp, enhanced_package_matching meta1 imp) ∈
          (analyze_dependencies meta1 reqs pipreqs imports).matched) ∧
       (normalize_package_name (enhanced_package_matching meta1 imp) ∉
          reqs.image normalize_package_name →
        enhanced_package_matching meta1 imp ∈
          (analyze_dependencies meta1 reqs pipreqs imports).missing))) ∧
    (∀ (meta1 : List (String × String)) (pipreqs : List String),
      (analyze_dependencies meta1 ∅ pipreqs []).missing = [] ∧
      (analyze_dependencies meta1 ∅ pipreqs []).matched = []) := by
  constructor
  · intro meta1 reqs pipreqs imports imp hmem hne
    exact foldl_analyze_mem imports ([], []) hmem hne
  · intro meta1 pipreqs
    exact ⟨rfl, rfl⟩

/-- Witness for the amended claim C4 at concrete inputs. -/
theorem analyzer_membership_routing_witness :
    ("requests", "requests") ∈
      (analyze_dependencies [] {"requests"} [] ["requests"]).matched ∧
    "flask" ∈ (analyze_dependencies [] {"requests"} [] ["flask"]).missing :=
  ⟨(analyzer_membership_routing.1 [] {"requests"} [] ["requests"] "requests"
      (by decide) (by decide)).1 (by decide),
   (analyzer_membership_routing.1 [] {"requests"} [] ["flask"] "flask"
      (by decide) (by decide)).2 (by decide)⟩

set_option maxHeartbeats 1000000 in
/-- Claim C5.  Name resolution is total (it is a function) and follows a
fixed priority with first match winning: the curated static table, then
the installed-package metadata table, then the import name itself; for
every metadata table the name `yaml` resolves to the curated target
`PyYAML`, and with a manifest declaring `PyYAML` (and not `yaml`) the
membership check succeeds, producing a matched pair and no missing
entry. -/
theorem name_resolution_priority :
    (∀ (meta1 : List (String × String)) (name v : String),
      lookupStr get_known_import_mappings name = some v →
      enhanced_package_matching meta1 name = v) ∧
    (∀ (meta1 : List (String × String)) (name v : String),
      lookupStr get_known_import_mappings name = none →
      lookupStr meta1 name = some v →
      enhanced_package_matching meta1 name = v) ∧
    (∀ (meta1 : List (String × String)) (name : String),
      lookupStr get_known_import_mappings name = none →
      lookupStr meta1 name = none →
      enhanced_package_matching meta1 name = name) ∧
    (∀ meta1 : List (String × String),
      enhanced_package_matching meta1 "yaml" = "PyYAML") ∧
    (∀ (meta1 : List (String × String)) (pipreqs : List String),
      (analyze_dependencies meta1 {"PyYAML"} pipreqs ["yaml"]).matched =
        [("yaml", "PyYAML")] ∧
      (analyze_dependencies meta1 {"PyYAML"} pipreqs ["yaml"]).missing = []) := by
  refine ⟨?_, ?_, ?_, fun meta1 => rfl, fun meta1 pipreqs => ⟨rfl, rfl⟩⟩
  · intro meta1 name v h
    unfold enhanced_package_matching
    rw [h]
  · intro meta1 name v h1 h2
    unfold enhanced_package_matching
    rw [h1, h2]
  · intro meta1 name h1 h2
    unfold enhanced_package_matching
    rw [h1, h2]

/-- Witness for claim C5 at concrete inputs. -/
theorem name_resolution_priority_witness :
    enhanced_package_matching [("requests", "observed")] "requests" = "observed" ∧
    enhanced_package_matching [] "flask" = "flask" :=
  ⟨name_resolution_priority.2.1 [("requests", "observed")] "requests" "observed"
      (by decide) (by decide),
   name_resolution_priority.2.2.1 [] "flask" (by decide) (by decide)⟩

/-! ## The file system model

`rglob("*.py")` is the list `pyFiles` of paths (component lists relative
to the project root, in traversal order); `content p` is what
`open(p).read()` returns (`none` models `OSError`/`UnicodeDecodeError`);
`existsPath` is the `Path.exists()` oracle used by `is_local_module`,
again on root-relative component lists. -/

/-- A path as its components relative to the project root. -/
abbrev PyPath := List String

structure FileSys where
  pyFiles : List PyPath
  content : PyPath → Option (List Char)
  existsPath : PyPath → Bool

/-! ## cache.py : FileCache -/

/-- One value of the cache catalog (`self.cache_data[file_key]`), a JSON
object that may lack keys: `hashv` is `entry.get('hash')` and `imports`
the `'imports'` entry.  The `timestamp` field is written by
`cache_file_imports` but never read by any code path, so it is not
modelled. -/
structure CacheEntry where
  hashv : Option (List Char)
  imports : Option (List String)
deriving DecidableEq

/-- The `FileCache` state: the `enabled` flag and the catalog
`self.cache_data`, keyed by the file path (the source keys by
`str(filepath)`; the component list is the same key up to rendering). -/
structure FileCache where
  enabled : Bool
  cache_data : List (PyPath × CacheEntry)
deriving DecidableEq

/-- Python `dict` lookup on the catalog (first binding wins; insertion
shadows). -/
def catLookup : List (PyPath × CacheEntry) → PyPath → Option CacheEntry
  | [], _ => none
  | (k, v) :: rest, p => if p = k then some v else catLookup rest p

/-- Embedding of `FileCache.get_file_hash`: `hashlib.md5` on the file
bytes is modelled as an injective digest with non-empty outputs
(`'#' ::` the content); an unreadable file gives `""` as in the
`except OSError` branch. -/
def get_file_hash (fs : FileSys) (p : PyPath) : List Char :=
  match fs.content p with
  | some c => '#' :: c
  | none => []

/-- Embedding of `FileCache.is_file_cached`: disabled caches report
nothing fresh; otherwise the entry must exist, the current hash must be
truthy (non-empty) and equal to the stored hash, and the entry must
record an import set. -/
def is_file_cached (cache : FileCache) (fs : FileSys) (p : PyPath) : Bool :=
  if cache.enabled = false then false
  else
    match catLookup cache.cache_data p with
    | none => false
    | some entry =>
      decide (get_file_hash fs p ≠ []) &&
      decide (entry.hashv = some (get_file_hash fs p)) &&
      decide (entry.imports ≠ none)

/-- Embedding of `FileCache.get_cached_imports`:
`set(entry.get('imports', []))` for a present key, else the empty set;
a disabled cache returns the empty set. -/
def get_cached_imports (cache : FileCache) (p : PyPath) : Finset String :=
  if cache.enabled = false then ∅
  else
    match catLookup cache.cache_data p with
    | some entry => (entry.imports.getD []).toFinset
    | none => ∅

/-- Embedding of `FileCache.cache_file_imports`: a no-op when disabled,
otherwise store the current hash and the import set under the file key
(`list(imports)` is modelled as the sorted enumeration of the set). -/
def cache_file_imports (cache : FileCache) (fs : FileSys) (p : PyPath)
    (imports : Finset String) : FileCache :=
  if cache.enabled = false then cache
  else
    { cache with cache_data :=
        (p, { hashv := some (get_file_hash fs p),
              imports := some (imports.sort (· ≤ ·)) }) :: cache.cache_data }

/-- Embedding of `FileCache._load_cache` (as run by `__init__`):
a disabled cache never reads the cache file and keeps the empty catalog;
an enabled one loads the file when present and parseable (`raw = some d`)
and starts fresh otherwise (`raw = none` models a missing or corrupted
file). -/
def load_cache (enabled : Bool)
    (raw : Option (List (PyPath × CacheEntry))) : FileCache :=
  if enabled = false then { enabled := enabled, cache_data := [] }
  else { enabled := enabled, cache_data := raw.getD [] }

/-- Embedding of `FileCache.clear_cache` (the catalog part; unlinking the
cache file has no in-memory effect). -/
def clear_cache (cache : FileCache) : FileCache :=
  { cache with cache_data := [] }

/-- The reachable-state invariant of `FileCache`: a disabled cache has an
empty catalog (it neither loads nor stores entries). -/
def cacheInv (cache : FileCache) : Prop :=
  cache.enabled = false → cache.cache_data = []

/-! ## gitignore.py : GitignoreHandler -/

/-- The `GitignoreHandler` state: the loaded non-comment pattern lines
and the strategy flag.  `use_pathspec` models
`self.use_pathspec and HAS_PATHSPEC` together with a successfully built
matcher, i.e. `true` selects `_is_ignored_by_pathspec` and `false`
selects `_is_ignored_by_fnmatch`. -/
structure GitignoreHandler where
  patterns : List (List Char)
  use_pathspec : Bool

/-- `fnmatch.fnmatch` with fuel: the classic glob matcher for literal
characters, `*` and `?` (POSIX `normcase` is the identity; character
classes `[...]` are outside the modelled fragment and treated as
literals, no claim exercises them).  Every step consumes at least one
unit of `s.length + p.length`, so the wrapper's fuel suffices. -/
def fnmatchFuel : Nat → List Char → List Char → Bool
  | 0, _, _ => false
  | n + 1, s, p =>
    match p with
    | [] => s.isEmpty
    | '*' :: pr =>
      fnmatchFuel n s pr ||
        (match s with
         | [] => false
         | _ :: sr => fnmatchFuel n sr ('*' :: pr))
    | '?' :: pr =>
      (match s with
       | [] => false
       | _ :: sr => fnmatchFuel n sr pr)
    | c :: pr =>
      (match s with
       | [] => false
       | d :: sr => decide (d = c) && fnmatchFuel n sr pr)

/-- `fnmatch.fnmatch(s, p)`. -/
def fnmatchPy (s p : List Char) : Bool :=
  fnmatchFuel (s.length + p.length + 1) s p

/-- `str(rel_path)` with `/` separators. -/
def renderPath (p : PyPath) : List Char :=
  (String.intercalate "/" p).data

/-- `[str(q) for q in rel_path.parents]`: every strict prefix of the
component list, the empty prefix rendering as `"."`. -/
def parentsStrs (rel : PyPath) : List (List Char) :=
  (List.range rel.length).map
    (fun k => if k = 0 then ['.'] else renderPath (rel.take k))

/-- Embedding of `GitignoreHandler._is_ignored_by_fnmatch`: some pattern
matches the full relative path or one of its parent directories. -/
def is_ignored_by_fnmatch (g : GitignoreHandler) (rel : PyPath) : Bool :=
  g.patterns.any (fun pattern =>
    fnmatchPy (renderPath rel) pattern ||
      (parentsStrs rel).any (fun par => fnmatchPy par pattern))

/-- Is the text free of `/` and of every gitwildmatch metacharacter? -/
def plainPat (l : List Char) : Bool :=
  l.all (fun c => decide (c ≠ '/') && decide (c ≠ '*') && decide (c ≠ '?') &&
    decide (c ≠ '[') && decide (c ≠ '!') && decide (c ≠ '#'))

/-- Modelled from the `pathspec` library (`gitwildmatch` +
`PathSpec.match_file`), which backs `_is_ignored_by_pathspec` but is not
part of this repository: restricted to wildcard-free, slash-free
patterns.  `name/` matches every path strictly below a directory called
`name` at any depth; `name` matches every path with a component called
`name`; patterns outside this fragment are modelled as non-matching (no
claim exercises them). -/
def gitwild_match_file (pat : List Char) (rel : PyPath) : Bool :=
  if pat.getLast? = some '/' && plainPat pat.dropLast && decide (pat.dropLast ≠ []) then
    rel.dropLast.any (fun comp => decide (comp.data = pat.dropLast))
  else if plainPat pat && decide (pat ≠ []) then
    rel.any (fun comp => decide (comp.data = pat))
  else false

/-- Embedding of `GitignoreHandler.is_ignored`: the pathspec matcher when
selected and available, the fnmatch fallback otherwise. -/
def is_ignored (g : GitignoreHandler) (rel : PyPath) : Bool :=
  if g.use_pathspec then g.patterns.any (fun pat => gitwild_match_file pat rel)
  else is_ignored_by_fnmatch g rel

/-! ## scanner.py : ImportScanner -/

/-- `\w` (ASCII fragment). -/
def wordChar (c : Char) : Bool :=
  (decide ('a' ≤ c) && decide (c ≤ 'z')) ||
  (decide ('A' ≤ c) && decide (c ≤ 'Z')) ||
  (decide ('0' ≤ c) && decide (c ≤ '9')) || decide (c = '_')

/-- `\s`: the regex whitespace class coincides with the strip class. -/
def wsChar (c : Char) : Bool :=
  isPyWhitespace c

/-- An attempt of the regex `^(\s*)kw\s+(\w+)` at one position (the
`\s*` is present only when `lead` is true, matching the third and fourth
source patterns).  The greedy quantifiers never need to backtrack here:
`\s` and `\w` are disjoint and `kw` starts with a non-whitespace letter.
On success, returns the captured `\w+` word and the rest of the text
after the match. -/
def matchAt (lead : Bool) (kw : List Char) (l : List Char) :
    Option (List Char × List Char) :=
  let l1 := if lead then l.dropWhile wsChar else l
  if kw.isPrefixOf l1 then
    let l2 := l1.drop kw.length
    if l2.takeWhile wsChar = [] then none
    else
      let l3 := l2.dropWhile wsChar
      let w := l3.takeWhile wordChar
      if w = [] then none
      else some (w, l3.dropWhile wordChar)
  else none

/-- `re.findall(pattern, content, re.MULTILINE)` for the patterns of
`_extract_imports_regex`, with fuel: attempts are made at line starts
(`^` with `re.MULTILINE`), scanning resumes right after each
non-overlapping match, and a failed position advances by one character
exactly as the regex engine retries at the next offset.  Each step
consumes at least one character, so the wrapper's fuel suffices. -/
def findallFuel (lead : Bool) (kw : List Char) :
    Nat → List Char → Bool → List (List Char)
  | 0, _, _ => []
  | _ + 1, [], _ => []
  | n + 1, c :: rest, atStart =>
    if atStart then
      match matchAt lead kw (c :: rest) with
      | some (w, rem) => w :: findallFuel lead kw n rem false
      | none => findallFuel lead kw n rest (decide (c = '\n'))
    else findallFuel lead kw n rest (decide (c = '\n'))

/-- One `re.findall` run over the whole content, starting at a line
start. -/
def findall_imports (lead : Bool) (kw : List Char) (content : List Char) :
    List (List Char) :=
  findallFuel lead kw (content.length + 1) content true

/-- Embedding of `ImportScanner._extract_imports_regex`: the union of the
captures of the four patterns `^import\s+(\w+)`, `^from\s+(\w+)`,
`^\s*import\s+(\w+)`, `^\s*from\s+(\w+)` (the re-reading of the file
returns the same immutable content). -/
def extract_imports_regex (content : List Char) : Finset String :=
  ((findall_imports false ['i', 'm', 'p', 'o', 'r', 't'] content ++
    findall_imports false ['f', 'r', 'o', 'm'] content ++
    findall_imports true ['i', 'm', 'p', 'o', 'r', 't'] content ++
    findall_imports true ['f', 'r', 'o', 'm'] content).map
      (fun w => (⟨w⟩ : String))).toFinset

/-- Embedding of `ImportScanner._extract_imports_from_file`.  `astParse`
is the oracle for `ast.parse` composed with `_extract_imports_from_ast`
(the set of first dotted components of all `import`/`from` statement
module names); `none` models a `SyntaxError`, routing to the regex
fallback; an unreadable file yields the empty set after a warning. -/
def extract_imports_from_file (astParse : List Char → Option (Finset String))
    (fs : FileSys) (p : PyPath) : Finset String :=
  match fs.content p with
  | none => ∅
  | some content =>
    match astParse content with
    | some imports => imports
    | none => extract_imports_regex content

/-- The hard-coded built-in names skipped by `_filter_external_imports`. -/
def builtinNames : List String :=
  ["__future__", "__main__", "__builtin__", "builtins"]

/-- The `ImportScanner` configuration: the absolute project root's own
components (`filepath.parts` includes them), the `ignore_dirs` set, the
standard-library catalog captured at construction
(`get_dynamic_stdlib_modules()`, environment-dependent), and the
gitignore handler. -/
structure ImportScanner where
  rootParts : List String
  ignore_dirs : List String
  stdlib_modules : List String
  gitignore : GitignoreHandler

/-- Embedding of `ImportScanner._should_skip_file`: some component of the
absolute path lies in `ignore_dirs`. -/
def should_skip_file (sc : ImportScanner) (rel : PyPath) : Bool :=
  (sc.rootParts ++ rel).any (fun part => decide (part ∈ sc.ignore_dirs))

/-- `import_name.startswith(".")`, on the character data. -/
def startsWithDot (s : String) : Bool :=
  match s.data with
  | c :: _ => decide (c = '.')
  | [] => false

/-- Embedding of `utils.is_local_module`: relative imports, plus the five
probe paths (`{name}.py` and `{name}/__init__.py` at the root and under
`src/`, and `apps/{name}/__init__.py`). -/
def is_local_module (import_name : String) (fs : FileSys) : Bool :=
  startsWithDot import_name ||
  fs.existsPath [import_name ++ ".py"] ||
  fs.existsPath [import_name, "__init__.py"] ||
  fs.existsPath ["src", import_name ++ ".py"] ||
  fs.existsPath ["src", import_name, "__init__.py"] ||
  fs.existsPath ["apps", import_name, "__init__.py"]

/-- Embedding of `ImportScanner._filter_external_imports`: drop standard
library modules, local modules and the hard-coded built-ins. -/
def filter_external_imports (sc : ImportScanner) (fs : FileSys)
    (all_imports : Finset String) : Finset String :=
  all_imports.filter (fun imp =>
    imp ∉ sc.stdlib_modules ∧ is_local_module imp fs = false ∧
    imp ∉ builtinNames)

/-- One iteration of the walk in `find_imports_in_code`: skip ignored
files, otherwise take the cached import set when fresh, else extract and
write back; accumulate the union. -/
def scanStep (astParse : List Char → Option (Finset String))
    (sc : ImportScanner) (fs : FileSys)
    (st : Finset String × FileCache) (p : PyPath) :
    Finset String × FileCache :=
  if should_skip_file sc p then st
  else if is_ignored sc.gitignore p then st
  else if is_file_cached st.2 fs p then
    (st.1 ∪ get_cached_imports st.2 p, st.2)
  else
    (st.1 ∪ extract_imports_from_file astParse fs p,
     cache_file_imports st.2 fs p (extract_imports_from_file astParse fs p))

/-- Embedding of `ImportScanner.find_imports_in_code`: walk the `*.py`
files, accumulate per-file imports, filter externals.  The pair also
returns the final cache state (`self.cache` is mutated in place in the
source). -/
def find_imports_in_code (astParse : List Char → Option (Finset String))
    (sc : ImportScanner) (fs : FileSys) (cache : FileCache) :
    Finset String × FileCache :=
  let res := fs.pyFiles.foldl (scanStep astParse sc fs) (∅, cache)
  (filter_external_imports sc fs res.1, res.2)

/-! ### Cache state facts -/

theorem load_cache_inv (e : Bool)
    (raw : Option (List (PyPath × CacheEntry))) :
    cacheInv (load_cache e raw) := by
  intro h
  cases e with
  | false => rfl
  | true => simp [load_cache] at h

theorem cache_file_imports_inv {cache : FileCache} (fs : FileSys)
    (p : PyPath) (i : Finset String) (hinv : cacheInv cache) :
    cacheInv (cache_file_imports cache fs p i) := by
  by_cases he : cache.enabled = false
  · simpa [cache_file_imports, he] using hinv
  · intro h
    simp only [cache_file_imports, if_neg he] at h
    exact absurd h he

theorem clear_cache_inv (cache : FileCache) : cacheInv (clear_cache cache) :=
  fun _ => rfl

/-- Claim C3.  On every reachable cache state (a disabled cache has an
empty catalog: it neither loads nor stores entries — `load_cache_inv`,
`cache_file_imports_inv`, `clear_cache_inv`), the freshness test returns
true for a path exactly when the catalog has an entry for that path whose
stored hash equals the (truthy) hash of the file's current bytes and
which records an import set; a hash mismatch, an absent entry or an
unreadable file (empty hash) all report not fresh. -/
theorem is_file_cached_characterization :
    ∀ (cache : FileCache) (fs : FileSys) (p : PyPath), cacheInv cache →
      (is_file_cached cache fs p = true ↔
        ∃ e, catLookup cache.cache_data p = some e ∧
          get_file_hash fs p ≠ [] ∧
          e.hashv = some (get_file_hash fs p) ∧
          e.imports ≠ none) := by
  intro cache fs p hinv
  by_cases he : cache.enabled = false
  · have hd := hinv he
    simp [is_file_cached, he, hd, catLookup]
  · unfold is_file_cached
    rw [if_neg he]
    cases hl : catLookup cache.cache_data p with
    | none => simp [hl]
    | some e =>
      simp only [hl, Bool.and_eq_true, decide_eq_true_eq]
      constructor
      · rintro ⟨⟨h1, h2⟩, h3⟩
        exact ⟨e, rfl, h1, h2, h3⟩
      · rintro ⟨e2, he2, h1, h2, h3⟩
        have hee : e = e2 := Option.some.inj he2
        subst hee
        exact ⟨⟨h1, h2⟩, h3⟩

/-- Concrete fixtures: a readable project file and a fresh cache entry
for it. -/
def fsC3 : FileSys :=
  { pyFiles := [["a.py"]]
    content := fun p => if p = ["a.py"] then some (String.data "x") else none
    existsPath := fun _ => false }

def cacheC3 : FileCache :=
  { enabled := true
    cache_data := [(["a.py"],
      { hashv := some (String.data "#x"), imports := some ["requests"] })] }

/-- Witness for claim C3 at a concrete input. -/
theorem is_file_cached_characterization_witness :
    is_file_cached cacheC3 fsC3 ["a.py"] = true :=
  (is_file_cached_characterization cacheC3 fsC3 ["a.py"]
      (fun h => by simp [cacheC3] at h)).mpr
    ⟨{ hashv := some (String.data "#x"), imports := some ["requests"] },
      by decide, by decide, by decide, by decide⟩

/-- Concrete fixture: a one-file project whose file imports `requests`. -/
def fsA : FileSys :=
  { pyFiles := [["a.py"]]
    content := fun p =>
      if p = ["a.py"] then some (String.data "import requests") else none
    existsPath := fun _ => false }

/-- Concrete fixture: a scanner with no ignore rules and an empty
standard-library catalog. -/
def scA : ImportScanner :=
  { rootParts := []
    ignore_dirs := []
    stdlib_modules := []
    gitignore := { patterns := [], use_pathspec := false } }

/-- The `ast.parse` oracle for the fixture sources: `import requests`
parses to one Import node with extracted set `{requests}`, and the empty
source parses to an empty module. -/
def astA : List Char → Option (Finset String) :=
  fun c =>
    if c = String.data "import requests" then some {"requests"}
    else if c = [] then some ∅ else none

/-! ### Scan / cache interaction facts -/

theorem catLookup_cons_ne_none {d : List (PyPath × CacheEntry)}
    {k q : PyPath} {v : CacheEntry} (h : catLookup d q ≠ none) :
    catLookup ((k, v) :: d) q ≠ none := by
  unfold catLookup
  by_cases hq : q = k
  · simp [hq]
  · simpa [hq] using h

theorem cache_file_imports_enabled (cache : FileCache) (fs : FileSys)
    (p : PyPath) (i : Finset String) :
    (cache_file_imports cache fs p i).enabled = cache.enabled := by
  by_cases he : cache.enabled = false <;> simp [cache_file_imports, he]

theorem cache_file_imports_lookup_mono {cache : FileCache} {q : PyPath}
    (fs : FileSys) (p : PyPath) (i : Finset String)
    (h : catLookup cache.cache_data q ≠ none) :
    catLookup (cache_file_imports cache fs p i).cache_data q ≠ none := by
  by_cases he : cache.enabled = false
  · simpa [cache_file_imports, he] using h
  · simp only [cache_file_imports, if_neg he]
    exact catLookup_cons_ne_none h

theorem is_file_cached_lookup {cache : FileCache} {fs : FileSys}
    {p : PyPath} (h : is_file_cached cache fs p = true) :
    catLookup cache.cache_data p ≠ none := by
  unfold is_file_cached at h
  by_cases he : cache.enabled = false
  · rw [if_pos he] at h
    exact absurd h (by simp)
  · rw [if_neg he] at h
    cases hl : catLookup cache.cache_data p with
    | none => rw [hl] at h; exact absurd h (by simp)
    | some e => simp [hl]

theorem scanStep_enabled (astParse : List Char → Option (Finset String))
    (sc : ImportScanner) (fs : FileSys) (st : Finset String × FileCache)
    (p : PyPath) :
    (scanStep astParse sc fs st p).2.enabled = st.2.enabled := by
  unfold scanStep
  split_ifs
  · rfl
  · rfl
  · rfl
  · exact cache_file_imports_enabled st.2 fs p _

theorem scanStep_lookup_mono {astParse : List Char → Option (Finset String)}
    {sc : ImportScanner} {fs : FileSys} {st : Finset String × FileCache}
    {p q : PyPath} (h : catLookup st.2.cache_data q ≠ none) :
    catLookup (scanStep astParse sc fs st p).2.cache_data q ≠ none := by
  unfold scanStep
  split_ifs
  · exact h
  · exact h
  · exact h
  · exact cache_file_imports_lookup_mono fs p _ h

theorem fold_scan_enabled (astParse : List Char → Option (Finset String))
    (sc : ImportScanner) (fs : FileSys) :
    ∀ (files : List PyPath) (st : Finset String × FileCache),
      (files.foldl (scanStep astParse sc fs) st).2.enabled = st.2.enabled := by
  intro files
  induction files with
  | nil => intro st; rfl
  | cons f t ih =>
    intro st
    rw [List.foldl_cons, ih]
    exact scanStep_enabled astParse sc fs st f

theorem fold_scan_lookup_mono {astParse : List Char → Option (Finset String)}
    {sc : ImportScanner} {fs : FileSys} :
    ∀ (files : List PyPath) (st : Finset String × FileCache) (q : PyPath),
      catLookup st.2.cache_data q ≠ none →
      catLookup ((files.foldl (scanStep astParse sc fs) st).2).cache_data q ≠ none := by
  intro files
  induction files with
  | nil => intro st q h; exact h
  | cons f t ih =>
    intro st q h
    rw [List.foldl_cons]
    exact ih _ q (scanStep_lookup_mono h)

theorem fold_scan_writes {astParse : List Char → Option (Finset String)}
    {sc : ImportScanner} {fs : FileSys} :
    ∀ (files : List PyPath) (st : Finset String × FileCache),
      st.2.enabled = true →
      ∀ p ∈ files, should_skip_file sc p = false →
        is_ignored sc.gitignore p = false →
        catLookup ((files.foldl (scanStep astParse sc fs) st).2).cache_data p ≠ none := by
  intro files
  induction files with
  | nil => intro st _ p hp; exact absurd hp (List.not_mem_nil p)
  | cons f t ih =>
    intro st hen p hp hskip hign
    rw [List.foldl_cons]
    rcases List.mem_cons.mp hp with heq | htail
    · subst heq
      apply fold_scan_lookup_mono t
      unfold scanStep
      rw [if_neg (by simp [hskip]), if_neg (by simp [hign])]
      by_cases hc : is_file_cached st.2 fs p = true
      · rw [if_pos hc]
        exact is_file_cached_lookup hc
      · rw [if_neg hc]
        have hne : ¬st.2.enabled = false := by simp [hen]
        simp only [cache_file_imports, if_neg hne]
        simp [catLookup]
    · exact ih (scanStep astParse sc fs st f)
        (by rw [scanStep_enabled]; exact hen) p htail hskip hign

theorem scanStep_cache_disabled {astParse : List Char → Option (Finset String)}
    {sc : ImportScanner} {fs : FileSys} {st : Finset String × FileCache}
    (p : PyPath) (hdis : st.2.enabled = false) :
    (scanStep astParse sc fs st p).2 = st.2 := by
  unfold scanStep
  split_ifs
  · rfl
  · rfl
  · rfl
  · simp [cache_file_imports, hdis]

theorem fold_scan_cache_disabled {astParse : List Char → Option (Finset String)}
    {sc : ImportScanner} {fs : FileSys} :
    ∀ (files : List PyPath) (st : Finset String × FileCache),
      st.2.enabled = false →
      (files.foldl (scanStep astParse sc fs) st).2 = st.2 := by
  intro files
  induction files with
  | nil => intro st _; rfl
  | cons f t ih =>
    intro st hdis
    rw [List.foldl_cons]
    have hs := @scanStep_cache_disabled astParse sc fs st f hdis
    rw [ih _ (by rw [hs]; exact hdis), hs]

/-- Claim C2, counterexample.  With caching disabled the extraction
result is never written back: after scanning a project with one
surviving, non-fresh file, the catalog is still empty
(`cache_file_imports` returns at `if not self.enabled`). -/
theorem cache_writeback_disabled_counterexample :
    should_skip_file scA ["a.py"] = false ∧
    is_ignored scA.gitignore ["a.py"] = false ∧
    is_file_cached { enabled := false, cache_data := [] } fsA ["a.py"] = false ∧
    (find_imports_in_code astA scA fsA
      { enabled := false, cache_data := [] }).2.cache_data = [] := by
  decide

/-- Claim C2, amended.  The freshly extracted import set is written back
into the cache catalog only when caching is enabled: with `enable_cache`
true, after the scan the catalog contains an entry for every surviving
file; with `enable_cache` false, `cache_file_imports` is a no-op and the
cache state is left unchanged (in particular no entry is added). -/
theorem cache_writeback_gated :
    ∀ (astParse : List Char → Option (Finset String)) (sc : ImportScanner)
      (fs : FileSys) (cache : FileCache),
      (cache.enabled = true →
        ∀ p ∈ fs.pyFiles, should_skip_file sc p = false →
          is_ignored sc.gitignore p = false →
          catLookup (find_imports_in_code astParse sc fs cache).2.cache_data p ≠ none) ∧
      (cache.enabled = false →
        (find_imports_in_code astParse sc fs cache).2 = cache) := by
  intro astParse sc fs cache
  constructor
  · intro hen p hp hskip hign
    exact fold_scan_writes fs.pyFiles (∅, cache) hen p hp hskip hign
  · intro hdis
    exact fold_scan_cache_disabled fs.pyFiles (∅, cache) hdis

/-- Witness for the amended claim C2 at concrete inputs. -/
theorem cache_writeback_gated_witness :
    catLookup (find_imports_in_code astA scA fsA
      { enabled := true, cache_data := [] }).2.cache_data ["a.py"] ≠ none ∧
    (find_imports_in_code astA scA fsA
      { enabled := false, cache_data := [] }).2 =
      { enabled := false, cache_data := [] } :=
  ⟨(cache_writeback_gated astA scA fsA { enabled := true, cache_data := [] }).1
      rfl ["a.py"] (by decide) (by decide) (by decide),
   (cache_writeback_gated astA scA fsA { enabled := false, cache_data := [] }).2
      rfl⟩

/-! ### Cache consistency and scan transparency -/

/-- A cache catalog is consistent with the file system when every entry
the freshness test accepts records exactly the import set that fresh
extraction of the (unchanged, by hash injectivity) content produces.
Every catalog the program itself writes has this shape
(`write_preserves_consistency`). -/
def cacheConsistent (astParse : List Char → Option (Finset String))
    (fs : FileSys) (cache : FileCache) : Prop :=
  ∀ p, is_file_cached cache fs p = true →
    get_cached_imports cache p = extract_imports_from_file astParse fs p

theorem consistent_of_empty (astParse : List Char → Option (Finset String))
    (fs : FileSys) (e : Bool) :
    cacheConsistent astParse fs { enabled := e, cache_data := [] } := by
  intro p h
  unfold is_file_cached at h
  by_cases he : ({ enabled := e, cache_data := [] } : FileCache).enabled = false
  · rw [if_pos he] at h
    exact absurd h (by simp)
  · rw [if_neg he] at h
    simp [catLookup] at h

theorem get_cached_imports_cons_ne {c : FileCache} {p q : PyPath}
    {e : CacheEntry} (hqp : q ≠ p) :
    get_cached_imports { c with cache_data := (p, e) :: c.cache_data } q =
      get_cached_imports c q := by
  simp [get_cached_imports, catLookup, hqp]

theorem is_file_cached_cons_ne {c : FileCache} {fs : FileSys}
    {p q : PyPath} {e : CacheEntry} (hqp : q ≠ p) :
    is_file_cached { c with cache_data := (p, e) :: c.cache_data } fs q =
      is_file_cached c fs q := by
  simp [is_file_cached, catLookup, hqp]

theorem write_preserves_consistency
    {astParse : List Char → Option (Finset String)} {fs : FileSys}
    {c : FileCache} {p : PyPath}
    (hc : cacheConsistent astParse fs c) :
    cacheConsistent astParse fs
      (cache_file_imports c fs p (extract_imports_from_file astParse fs p)) := by
  intro q hq
  by_cases he : c.enabled = false
  · rw [show cache_file_imports c fs p (extract_imports_from_file astParse fs p) = c
        from by simp [cache_file_imports, he]] at hq ⊢
    exact hc q hq
  · have hwrite : cache_file_imports c fs p (extract_imports_from_file astParse fs p) =
        { c with cache_data :=
          (p, { hashv := some (get_file_hash fs p),
                imports := some ((extract_imports_from_file astParse fs p).sort (· ≤ ·)) })
            :: c.cache_data } := by
      simp [cache_file_imports, he]
    rw [hwrite] at hq ⊢
    by_cases hqp : q = p
    · subst hqp
      simp [get_cached_imports, he, catLookup, Finset.sort_toFinset]
    · rw [is_file_cached_cons_ne hqp] at hq
      rw [get_cached_imports_cons_ne hqp]
      exact hc q hq

theorem fold_scan_imports_eq {astParse : List Char → Option (Finset String)}
    {sc : ImportScanner} {fs : FileSys} :
    ∀ (files : List PyPath) (acc : Finset String) (cT cF : FileCache),
      cF.enabled = false → cacheConsistent astParse fs cT →
      (files.foldl (scanStep astParse sc fs) (acc, cT)).1 =
      (files.foldl (scanStep astParse sc fs) (acc, cF)).1 := by
  intro files
  induction files with
  | nil => intro acc cT cF _ _; rfl
  | cons f t ih =>
    intro acc cT cF hdis hcons
    rw [List.foldl_cons, List.foldl_cons]
    by_cases h1 : should_skip_file sc f = true
    · rw [show scanStep astParse sc fs (acc, cT) f = (acc, cT) from by
          unfold scanStep; rw [if_pos h1],
        show scanStep astParse sc fs (acc, cF) f = (acc, cF) from by
          unfold scanStep; rw [if_pos h1]]
      exact ih acc cT cF hdis hcons
    by_cases h2 : is_ignored sc.gitignore f = true
    · rw [show scanStep astParse sc fs (acc, cT) f = (acc, cT) from by
          unfold scanStep; rw [if_neg h1, if_pos h2],
        show scanStep astParse sc fs (acc, cF) f = (acc, cF) from by
          unfold scanStep; rw [if_neg h1, if_pos h2]]
      exact ih acc cT cF hdis hcons
    have hF : scanStep astParse sc fs (acc, cF) f =
        (acc ∪ extract_imports_from_file astParse fs f,
          cache_file_imports cF fs f (extract_imports_from_file astParse fs f)) := by
      unfold scanStep
      rw [if_neg h1, if_neg h2,
        if_neg (show ¬is_file_cached cF fs f = true from by
          simp [is_file_cached, hdis])]
    have hFc : cache_file_imports cF fs f
        (extract_imports_from_file astParse fs f) = cF := by
      simp [cache_file_imports, hdis]
    rw [hF, hFc]
    by_cases hcached : is_file_cached cT fs f = true
    · have hT : scanStep astParse sc fs (acc, cT) f =
          (acc ∪ extract_imports_from_file astParse fs f, cT) := by
        unfold scanStep
        rw [if_neg h1, if_neg h2, if_pos hcached]
        rw [show get_cached_imports cT f = extract_imports_from_file astParse fs f
          from hcons f hcached]
      rw [hT]
      exact ih _ cT cF hdis hcons
    · have hT : scanStep astParse sc fs (acc, cT) f =
          (acc ∪ extract_imports_from_file astParse fs f,
            cache_file_imports cT fs f (extract_imports_from_file astParse fs f)) := by
        unfold scanStep
        rw [if_neg h1, if_neg h2, if_neg hcached]
      rw [hT]
      exact ih _ _ cF hdis (write_preserves_consistency hcons)

/-- Claim C1.  For every project tree and configuration, scanning with
the cache enabled returns exactly the same import set as scanning with
the cache disabled, for every consistent catalog — in particular for
every catalog the program itself has written (`write_preserves_consistency`,
plus the injective-digest model of md5: an accepted hash implies
unchanged content).  Caching changes only which branch computes each
per-file set, never the scan output. -/
theorem caching_transparent :
    ∀ (astParse : List Char → Option (Finset String)) (sc : ImportScanner)
      (fs : FileSys) (dataT dataF : List (PyPath × CacheEntry)),
      cacheConsistent astParse fs { enabled := true, cache_data := dataT } →
      (find_imports_in_code astParse sc fs
        { enabled := true, cache_data := dataT }).1 =
      (find_imports_in_code astParse sc fs
        { enabled := false, cache_data := dataF }).1 := by
  intro astParse sc fs dT dF hcons
  simp only [find_imports_in_code]
  rw [fold_scan_imports_eq fs.pyFiles ∅ { enabled := true, cache_data := dT }
    { enabled := false, cache_data := dF } rfl hcons]

/-- Witness for claim C1 at concrete inputs. -/
theorem caching_transparent_witness :
    (find_imports_in_code astA scA fsA
      { enabled := true, cache_data := [] }).1 =
    (find_imports_in_code astA scA fsA
      { enabled := false, cache_data := [] }).1 :=
  caching_transparent astA scA fsA [] []
    (consistent_of_empty astA fsA true)

/-! ### Ignore rules (claim C7) -/

/-- Concrete fixture: a project whose only file is `vendor/lib.py`,
which imports `requests`. -/
def fsV : FileSys :=
  { pyFiles := [["vendor", "lib.py"]]
    content := fun p =>
      if p = ["vendor", "lib.py"] then some (String.data "import requests")
      else none
    existsPath := fun _ => false }

/-- Concrete fixture: the ignore rule `vendor/` under the fnmatch
fallback strategy. -/
def scV : ImportScanner :=
  { rootParts := []
    ignore_dirs := []
    stdlib_modules := []
    gitignore := { patterns := [String.data "vendor/"], use_pathspec := false } }

/-- Claim C7, counterexample.  Under the glob fallback the rule
`vendor/` matches neither the relative path `vendor/lib.py` nor its
parents `vendor` and `.` (fnmatch has no trailing-slash directory
semantics), so the file is scanned and its import reaches the result. -/
theorem vendor_rule_fnmatch_counterexample :
    is_ignored scV.gitignore ["vendor", "lib.py"] = false ∧
    "requests" ∈ (find_imports_in_code astA scV fsV
      { enabled := false, cache_data := [] }).1 := by
  decide

theorem scanStep_ignored_id {astParse : List Char → Option (Finset String)}
    {sc : ImportScanner} {fs : FileSys} {p : PyPath}
    (h : should_skip_file sc p = true ∨ is_ignored sc.gitignore p = true) :
    ∀ st, scanStep astParse sc fs st p = st := by
  intro st
  unfold scanStep
  rcases h with h | h
  · rw [if_pos h]
  · by_cases h1 : should_skip_file sc p = true
    · rw [if_pos h1]
    · rw [if_neg h1, if_pos h]

/-- Claim C7, amended.  With the primary pattern engine
(`use_pathspec`), the rule `vendor/` makes `vendor/lib.py` contribute
nothing: removing the file from the walk leaves both the import set and
the final cache state unchanged, for every content and configuration.
Under the glob fallback the rule does not match and the file is scanned
(see the counterexample). -/
theorem vendor_rule_pathspec_ignores :
    ∀ (astParse : List Char → Option (Finset String)) (sc : ImportScanner)
      (fs : FileSys) (cache : FileCache) (l1 l2 : List PyPath),
      fs.pyFiles = l1 ++ ["vendor", "lib.py"] :: l2 →
      sc.gitignore = { patterns := [String.data "vendor/"], use_pathspec := true } →
      find_imports_in_code astParse sc fs cache =
        find_imports_in_code astParse sc { fs with pyFiles := l1 ++ l2 } cache := by
  intro astParse sc fs cache l1 l2 hfiles hg
  have hstep : scanStep astParse sc { fs with pyFiles := l1 ++ l2 } =
      scanStep astParse sc fs := rfl
  have hfilt : filter_external_imports sc { fs with pyFiles := l1 ++ l2 } =
      filter_external_imports sc fs := rfl
  simp only [find_imports_in_code, hstep, hfilt]
  rw [hfiles, List.foldl_append, List.foldl_append, List.foldl_cons]
  rw [scanStep_ignored_id (Or.inr (by rw [hg]; decide))]

/-- Witness for the amended claim C7 at concrete inputs. -/
theorem vendor_rule_pathspec_ignores_witness :
    find_imports_in_code astA
      { rootParts := [], ignore_dirs := [], stdlib_modules := [],
        gitignore := { patterns := [String.data "vendor/"], use_pathspec := true } }
      fsV { enabled := false, cache_data := [] } =
    find_imports_in_code astA
      { rootParts := [], ignore_dirs := [], stdlib_modules := [],
        gitignore := { patterns := [String.data "vendor/"], use_pathspec := true } }
      { fsV with pyFiles := [] } { enabled := false, cache_data := [] } :=
  vendor_rule_pathspec_ignores astA _ fsV _ [] [] rfl rfl

/-! ### The regex fallback (claim C8) -/

/-- The oracle of a parse failure: `ast.parse` raises `SyntaxError` on
the fixture contents. -/
def astNone : List Char → Option (Finset String) :=
  fun _ => none

/-- Concrete fixture: a file whose first line is the bare (and invalid)
statement `import` and whose second line is `import requests`. -/
def fsB : FileSys :=
  { pyFiles := [["b.py"]]
    content := fun p =>
      if p = ["b.py"] then some (String.data "import\nimport requests\n")
      else none
    existsPath := fun _ => false }

/-- Claim C8, counterexample.  The fallback patterns let `\s+` cross
newlines: on `"import\nimport requests\n"` the first match consumes
`import\nimport` (capturing `import`) and scanning resumes past the
second keyword, so the line `import requests` yields no capture and
`requests` is absent from the fallback's result. -/
theorem regex_fallback_counterexample :
    extract_imports_from_file astNone fsB ["b.py"] = {"import"} ∧
    "requests" ∉ extract_imports_from_file astNone fsB ["b.py"] := by
  constructor
  · decide
  · decide

/-- Claim C8, amended.  When syntax parsing fails, extraction falls back
to the line-oriented pattern scan and never aborts (it is a total
function into sets); a file with invalid syntax whose first line is
`import requests` still yields `requests`.  (If an earlier line ends
with a bare `import`/`from` keyword, the fallback's `\s+` can swallow a
following `import <name>` line — see the counterexample — hence the
first-line form.) -/
theorem regex_fallback_first_line :
    ∀ (rest : List Char) (astParse : List Char → Option (Finset String))
      (fs : FileSys) (p : PyPath),
      fs.content p = some (String.data "import requests\n" ++ rest) →
      astParse (String.data "import requests\n" ++ rest) = none →
      "requests" ∈ extract_imports_from_file astParse fs p := by
  intro rest astParse fs p hc hp
  have hred : extract_imports_from_file astParse fs p =
      extract_imports_regex (String.data "import requests\n" ++ rest) := by
    unfold extract_imports_from_file
    rw [hc]
    show (match astParse (String.data "import requests\n" ++ rest) with
      | some imports => imports
      | none => extract_imports_regex (String.data "import requests\n" ++ rest)) =
      extract_imports_regex (String.data "import requests\n" ++ rest)
    rw [hp]
  rw [hred]
  unfold extract_imports_regex
  apply List.mem_toFinset.mpr
  apply List.mem_map.mpr
  refine ⟨String.data "requests", ?_, rfl⟩
  have hfa : findall_imports false ['i', 'm', 'p', 'o', 'r', 't']
      (String.data "import requests\n" ++ rest) =
      String.data "requests" ::
        findallFuel false ['i', 'm', 'p', 'o', 'r', 't']
          ((String.data "import requests\n" ++ rest).length)
          ('\n' :: rest) false := rfl
  exact List.mem_append.mpr (Or.inl (List.mem_append.mpr (Or.inl
    (List.mem_append.mpr (Or.inl (hfa ▸ List.mem_cons_self _ _))))))

/-- Concrete fixture for the C8 witness: the first line is
`import requests`, the remainder of the file is empty. -/
def fsB2 : FileSys :=
  { pyFiles := [["c.py"]]
    content := fun p =>
      if p = ["c.py"] then some (String.data "import requests\n" ++ []) else none
    existsPath := fun _ => false }

/-- Witness for the amended claim C8 at a concrete input. -/
theorem regex_fallback_first_line_witness :
    "requests" ∈ extract_imports_from_file astNone fsB2 ["c.py"] :=
  regex_fallback_first_line [] astNone fsB2 ["c.py"] rfl rfl

/-! ### External filtering (claim C9) -/

/-- Concrete fixture: `main.py` imports `foo`, and the project contains
the module file `apps/foo.py` (and nothing else named `foo`). -/
def fsL : FileSys :=
  { pyFiles := [["main.py"], ["apps", "foo.py"]]
    content := fun p =>
      if p = ["main.py"] then some (String.data "import foo")
      else if p = ["apps", "foo.py"] then some []
      else none
    existsPath := fun p =>
      decide (p = ["main.py"]) || decide (p = ["apps"]) ||
        decide (p = ["apps", "foo.py"]) }

/-- The `ast.parse` oracle for the C9 fixture sources. -/
def astL : List Char → Option (Finset String) :=
  fun c =>
    if c = String.data "import foo" then some {"foo"}
    else if c = ([] : List Char) then some ∅ else none

/-- Claim C9, counterexample.  The claim counts a matching `.py` file
under `apps/` as a local module, but `is_local_module` probes only
`apps/{name}/__init__.py`: with `apps/foo.py` present, `foo` is not
recognized as local and survives the filter into the scan result. -/
theorem local_module_apps_py_counterexample :
    fsL.existsPath ["apps", "foo.py"] = true ∧
    is_local_module "foo" fsL = false ∧
    "foo" ∈ (find_imports_in_code astL scA fsL
      { enabled := false, cache_data := [] }).1 := by
  refine ⟨by decide, by decide, by decide⟩

/-- Claim C9, amended.  The filtered scan result never contains a
name from the standard-library catalog, nor one the code's probe
set recognizes as local: `{name}.py` or `{name}/__init__.py` at the
project root, `src/{name}.py` or `src/{name}/__init__.py`, or
`apps/{name}/__init__.py` (under `apps/` only the package form is
probed; a bare `apps/{name}.py` is not — see the counterexample). -/
theorem filtered_scan_excludes :
    ∀ (astParse : List Char → Option (Finset String)) (sc : ImportScanner)
      (fs : FileSys) (cache : FileCache) (name : String),
      (name ∈ sc.stdlib_modules →
        name ∉ (find_imports_in_code astParse sc fs cache).1) ∧
      (is_local_module name fs = true →
        name ∉ (find_imports_in_code astParse sc fs cache).1) := by
  intro astParse sc fs cache name
  constructor <;> intro h hmem
  · simp only [find_imports_in_code, filter_external_imports] at hmem
    exact (Finset.mem_filter.mp hmem).2.1 h
  · simp only [find_imports_in_code, filter_external_imports] at hmem
    exact absurd (Finset.mem_filter.mp hmem).2.2.1 (by simp [h])

/-- Concrete fixture: a scanner whose standard-library catalog contains
`os`. -/
def scS : ImportScanner :=
  { rootParts := []
    ignore_dirs := []
    stdlib_modules := ["os"]
    gitignore := { patterns := [], use_pathspec := false } }

/-- Concrete fixture: an empty project in which `foo.py` exists at the
root. -/
def fsLocal : FileSys :=
  { pyFiles := []
    content := fun _ => none
    existsPath := fun p => decide (p = ["foo.py"]) }

/-- Witness for the amended claim C9 at concrete inputs. -/
theorem filtered_scan_excludes_witness :
    "os" ∉ (find_imports_in_code astA scS fsA
      { enabled := false, cache_data := [] }).1 ∧
    "foo" ∉ (find_imports_in_code astA scA fsLocal
      { enabled := false, cache_data := [] }).1 :=
  ⟨(filtered_scan_excludes astA scS fsA
      { enabled := false, cache_data := [] } "os").1 (by decide),
   (filtered_scan_excludes astA scA fsLocal
      { enabled := false, cache_data := [] } "foo").2 (by decide)⟩

end PyImportSync

